import Mathlib

/-!
Verification of the todo-app controller core.

The controller (`TodoController` in `src/js/todo.js`, duplicated with
documentation in the second copy of the source) keeps two ordered lists of
todos, `todoList` (active) and `completedList`, and exposes four operations:
`loadTodos`, `addTodo`, `toggleCompleted` and `saveTodos`.  We embed the
operations as pure functions on an explicit controller state.  Calls to the
view (`displayTodos`, `displayCompleted`) and to storage
(`localStorage.setItem`) are recorded in an event trace; the content of
`localStorage` at load time is represented by its parse outcome (`absent`,
`malformed`, or a parsed list of todos), since `JSON.parse` either throws a
syntax error or yields the stored records.
-/

/-- The `Todo` entity: `id`, `text`, `completed`, `priority`, `dueDate`,
exactly the five fields of the `Todo` class constructor. -/
structure Todo where
  id : Nat
  text : String
  completed : Bool
  priority : String
  dueDate : String
deriving Repr, DecidableEq

/-- The controller state: the two ordered lists `this.todoList` and
`this.completedList`. -/
structure CState where
  todoList : List Todo
  completedList : List Todo
deriving Repr, DecidableEq

/-- Observable side effects of a controller operation, in the order the code
performs them: view renders and storage writes.  `setItem l` stands for
`localStorage.setItem("todos", JSON.stringify(l))`. -/
inductive Event where
  | displayTodos (l : List Todo)
  | displayCompleted (l : List Todo)
  | setItem (l : List Todo)
deriving Repr, DecidableEq

/-- The content of `localStorage.getItem("todos")` as seen through
`JSON.parse`: the key may be absent, hold a string that is not valid JSON
(`JSON.parse` throws a `SyntaxError`), or hold a valid serialization of a
list of todo records. -/
inductive Stored where
  | absent
  | malformed
  | parsed (todos : List Todo)
deriving Repr, DecidableEq

/-- The error raised when deserialization of the stored blob fails
(`JSON.parse` throwing on malformed input). -/
inductive DeserializationError where
  | parseFailure
deriving Repr, DecidableEq

/-- `saveTodos()`: concatenates `todoList` and `completedList` and writes the
flat list under the key `"todos"`.  The in-memory state is returned as is;
the write is recorded as an event. -/
def saveTodos (st : CState) : CState × List Event :=
  (st, [Event.setItem (st.todoList ++ st.completedList)])

/-- `addTodo(text, priority, dueDate)` as written in `src/js/todo.js`:
builds a `Todo` with `id = this.todoList.length + 1` and `completed = false`,
pushes it onto `todoList`, renders the active list, then saves. -/
def addTodo (text priority dueDate : String) (st : CState) : CState × List Event :=
  let newTodo : Todo := ⟨st.todoList.length + 1, text, false, priority, dueDate⟩
  let st1 : CState := { st with todoList := st.todoList ++ [newTodo] }
  let saved := saveTodos st1
  (saved.1, Event.displayTodos st1.todoList :: saved.2)

/-- `addTodo(text, priority, dueDate)` as written in the documented copy of
the controller (`part_000`, `nextId = this.todoList.length +
this.completedList.length + 1`); identical to `addTodo` except for the id
formula. -/
def addTodoDoc (text priority dueDate : String) (st : CState) : CState × List Event :=
  let nextId := st.todoList.length + st.completedList.length + 1
  let newTodo : Todo := ⟨nextId, text, false, priority, dueDate⟩
  let st1 : CState := { st with todoList := st.todoList ++ [newTodo] }
  let saved := saveTodos st1
  (saved.1, Event.displayTodos st1.todoList :: saved.2)

/-- `toggleCompleted(id)`: finds the id in `todoList` first; if found,
filters every entry with that id out of `todoList`, pushes the found todo
onto `completedList`, marks every element of `completedList` completed,
renders both lists and saves.  Otherwise searches `completedList` and does
the symmetric move.  If the id is in neither list, nothing happens. -/
def toggleCompleted (id : Nat) (st : CState) : CState × List Event :=
  match st.todoList.find? (fun t => t.id == id) with
  | some todo =>
    let newActive := st.todoList.filter (fun t => ! (t.id == id))
    let newCompleted :=
      (st.completedList ++ [todo]).map (fun t => { t with completed := true })
    let st1 : CState := ⟨newActive, newCompleted⟩
    let saved := saveTodos st1
    (saved.1, Event.displayTodos newActive :: Event.displayCompleted newCompleted :: saved.2)
  | none =>
    match st.completedList.find? (fun t => t.id == id) with
    | some completedTodo =>
      let newCompleted := st.completedList.filter (fun t => ! (t.id == id))
      let newActive :=
        (st.todoList ++ [completedTodo]).map (fun t => { t with completed := false })
      let st1 : CState := ⟨newActive, newCompleted⟩
      let saved := saveTodos st1
      (saved.1, Event.displayTodos newActive :: Event.displayCompleted newCompleted :: saved.2)
    | none => (st, [])

/-- `loadTodos()`: reads the stored blob.  If absent, does nothing.  If
malformed, `JSON.parse` throws: the error propagates out of the method
unhandled.  If parsed, partitions the flat list by the `completed` flag into
the two lists (preserving order) and renders both. -/
def loadTodos (stored : Stored) (st : CState) :
    Except DeserializationError (CState × List Event) :=
  match stored with
  | Stored.absent => Except.ok (st, [])
  | Stored.malformed => Except.error DeserializationError.parseFailure
  | Stored.parsed todos =>
    let newActive := todos.filter (fun t => ! t.completed)
    let newCompleted := todos.filter (fun t => t.completed)
    Except.ok (⟨newActive, newCompleted⟩,
      [Event.displayTodos newActive, Event.displayCompleted newCompleted])

/-- The controller constructor starts with two empty lists and immediately
calls `loadTodos()`; the view bindings have no effect on the state. -/
def initController (stored : Stored) :
    Except DeserializationError (CState × List Event) :=
  loadTodos stored ⟨[], []⟩

/-- States the controller can be in: the freshly constructed empty state,
and anything reachable from a reachable state by `addTodo`,
`toggleCompleted`, or a successful `loadTodos` of some stored list. -/
inductive Reachable : CState → Prop where
  | init : Reachable ⟨[], []⟩
  | add (text priority dueDate : String) (st : CState) :
      Reachable st → Reachable (addTodo text priority dueDate st).1
  | toggle (id : Nat) (st : CState) :
      Reachable st → Reachable (toggleCompleted id st).1
  | load (todos : List Todo) (st st1 : CState) (ev : List Event) :
      Reachable st → loadTodos (Stored.parsed todos) st = Except.ok (st1, ev) →
      Reachable st1

/-- The denormalization invariant: every todo held in the active list is
flagged not completed, every todo held in the completed list is flagged
completed. -/
def Consistent (st : CState) : Prop :=
  (∀ t ∈ st.todoList, t.completed = false) ∧
  (∀ t ∈ st.completedList, t.completed = true)

instance (st : CState) : Decidable (Consistent st) := by
  unfold Consistent; infer_instance

/-- Number of occurrences of an id in a list of todos. -/
def countId (l : List Todo) (x : Nat) : Nat :=
  (l.filter (fun t => t.id == x)).length

/-- The empty state the controller constructor starts from. -/
def emptyState : CState := ⟨[], []⟩

/-- State after `addTodo "a"`, `addTodo "b"`, `toggleCompleted 1` from the
empty state: active holds the todo with id 2, completed holds id 1. -/
def stTwoToggled : CState :=
  (toggleCompleted 1
    (addTodo "b" "p2" "d2" (addTodo "a" "p1" "d1" emptyState).1).1).1

/-- State after `addTodo "a"`, `toggleCompleted 1`, `addTodo "d"` from the
empty state. -/
def stReusedId : CState :=
  (addTodo "d" "p2" "d2" (toggleCompleted 1 (addTodo "a" "p1" "d1" emptyState).1).1).1

/-- State after `addTodo "a"`, `addTodo "b"`, `toggleCompleted 1`,
`addTodo "c"` from the empty state: the third add reuses id 2, so the
active list holds two todos with id 2. -/
def stDupId : CState := (addTodo "c" "p3" "d3" stTwoToggled).1

/-- A state in which the `completed` flag of the todo held in the completed
list disagrees with its list (the flag is `false`). -/
def stInconsistent : CState :=
  ⟨[⟨1, "a", false, "p1", "d1"⟩], [⟨2, "b", false, "p2", "d2"⟩]⟩

/-- A state whose active list holds two distinct todos with the same id. -/
def stDoubled : CState :=
  ⟨[⟨1, "a", false, "p1", "d1"⟩, ⟨1, "b", false, "p2", "d2"⟩], []⟩

/-- The ids of every todo in memory, active list first. -/
def allIds (st : CState) : List Nat :=
  (st.todoList ++ st.completedList).map Todo.id

/-- States reachable from the empty state by sequences of add and toggle
operations alone, with the add of the documented controller copy
(`addTodoDoc`, id formula `active.length + completed.length + 1`). -/
inductive ReachableDoc : CState → Prop where
  | init : ReachableDoc ⟨[], []⟩
  | add (text priority dueDate : String) (st : CState) :
      ReachableDoc st → ReachableDoc (addTodoDoc text priority dueDate st).1
  | toggle (id : Nat) (st : CState) :
      ReachableDoc st → ReachableDoc (toggleCompleted id st).1

/-- C1: the claim states that `addTodo` assigns
`id = active.length + completed.length + 1`, so that after adding ids 1 and 2
and toggling id 1, a third add assigns id 3.  On the code of
`src/js/todo.js` this fails: from the state `stTwoToggled`
(active = [id 2], completed = [id 1]) the third add assigns
`todoList.length + 1 = 2`, duplicating the live id 2; the documented copy of
the controller (`addTodoDoc`) assigns 3 exactly as the claim states. -/
theorem c1_addTodo_id_eval :
    stTwoToggled.todoList.length = 1 ∧
    stTwoToggled.completedList.length = 1 ∧
    stDupId.todoList.map Todo.id = [2, 2] ∧
    (addTodoDoc "c" "p3" "d3" stTwoToggled).1.todoList.map Todo.id = [2, 3] := by
  decide

/-- C2: the claim states that along every add/toggle sequence from the empty
state no todo is duplicated across the lists and none is lost.  On the code
this fails: after `addTodo`, `toggleCompleted 1`, `addTodo` the id 1 is held
by both lists at once, and after `addTodo`, `addTodo`, `toggleCompleted 1`,
`addTodo`, `toggleCompleted 2` only two todos remain of the three that were
added — the toggle filters out both todos carrying the duplicated id 2 but
re-appends only one. -/
theorem c2_partition_eval :
    ((∃ t ∈ stReusedId.todoList, t.id = 1) ∧
     (∃ t ∈ stReusedId.completedList, t.id = 1)) ∧
    (stDupId.todoList.length + stDupId.completedList.length = 3 ∧
     (toggleCompleted 2 stDupId).1.todoList.length +
       (toggleCompleted 2 stDupId).1.completedList.length = 2) := by
  decide

/-- C6: toggling an id found in neither list is a silent no-op — the state is
returned unchanged and no event (no render, no storage write) is emitted. -/
theorem c6_toggle_absent_noop (id : Nat) (st : CState)
    (hA : st.todoList.find? (fun t => t.id == id) = none)
    (hC : st.completedList.find? (fun t => t.id == id) = none) :
    toggleCompleted id st = (st, []) := by
  simp [toggleCompleted, hA, hC]

theorem c6_toggle_absent_noop_witness :
    stTwoToggled.todoList.find? (fun t => t.id == 7) = none ∧
    stTwoToggled.completedList.find? (fun t => t.id == 7) = none ∧
    toggleCompleted 7 stTwoToggled = (stTwoToggled, []) :=
  ⟨by decide, by decide,
    c6_toggle_absent_noop 7 stTwoToggled (by decide) (by decide)⟩

/-- C8: when the stored string is present but malformed, `loadTodos` fails
with a `DeserializationError` that propagates to the caller (also out of the
constructor), with no render and no storage write — user data is not
dropped. -/
theorem c8_load_malformed_propagates :
    (∀ st : CState, loadTodos Stored.malformed st =
        Except.error DeserializationError.parseFailure) ∧
    initController Stored.malformed =
      Except.error DeserializationError.parseFailure :=
  ⟨fun _ => rfl, rfl⟩

/-- C9: when no persisted value exists under the storage key, `loadTodos`
changes nothing and emits no event; in particular the constructor ends with
both lists empty and neither `displayTodos` nor `displayCompleted` called. -/
theorem c9_load_absent_empty :
    (∀ st : CState, loadTodos Stored.absent st = Except.ok (st, [])) ∧
    initController Stored.absent = Except.ok (⟨[], []⟩, []) :=
  ⟨fun _ => rfl, rfl⟩

/-- C10: `saveTodos` leaves the in-memory state entirely unchanged — both
lists keep the same todos, with the same field values, in the same order;
its only effect is the storage write of the flat concatenation. -/
theorem c10_save_frame (st : CState) :
    (saveTodos st).1.todoList = st.todoList ∧
    (saveTodos st).1.completedList = st.completedList ∧
    (saveTodos st).2 = [Event.setItem (st.todoList ++ st.completedList)] :=
  ⟨rfl, rfl, rfl⟩

/-- Re-marking a list of todos completed is the identity on a list whose
todos are all already completed. -/
theorem map_setTrue_of_all (l : List Todo) (h : ∀ t ∈ l, t.completed = true) :
    l.map (fun t => { t with completed := true }) = l := by
  induction l with
  | nil => rfl
  | cons a l ih =>
    have ha : ({ a with completed := true } : Todo) = a := by
      have := h a (by simp)
      cases a
      simp_all
    simp only [List.map_cons, ha]
    rw [ih (fun t ht => h t (by simp [ht]))]

/-- Re-marking a list of todos not completed is the identity on a list whose
todos are all already not completed. -/
theorem map_setFalse_of_all (l : List Todo) (h : ∀ t ∈ l, t.completed = false) :
    l.map (fun t => { t with completed := false }) = l := by
  induction l with
  | nil => rfl
  | cons a l ih =>
    have ha : ({ a with completed := false } : Todo) = a := by
      have := h a (by simp)
      cases a
      simp_all
    simp only [List.map_cons, ha]
    rw [ih (fun t ht => h t (by simp [ht]))]

/-- If an id does not occur in a list, filtering that id out changes
nothing. -/
theorem filter_ne_of_countId_zero (l : List Todo) (x : Nat)
    (h : countId l x = 0) :
    l.filter (fun t => ! (t.id == x)) = l := by
  have h0 : ∀ t ∈ l, ¬ ((fun t : Todo => t.id == x) t = true) := by
    rw [← List.filter_eq_nil_iff]
    exact List.length_eq_zero.mp h
  apply List.filter_eq_self.mpr
  intro a ha
  simp only [Bool.not_eq_true']
  exact Bool.not_eq_true _ |>.mp (h0 a ha)

/-- If an id does not occur in a list, searching for it fails. -/
theorem find?_eq_none_of_countId_zero (l : List Todo) (x : Nat)
    (h : countId l x = 0) :
    l.find? (fun t => t.id == x) = none := by
  have h0 : ∀ t ∈ l, ¬ ((fun t : Todo => t.id == x) t = true) := by
    rw [← List.filter_eq_nil_iff]
    exact List.length_eq_zero.mp h
  exact List.find?_eq_none.mpr h0

/-- Searching a concatenation whose first part has no match searches the
second part. -/
theorem find?_append_of_none (p : Todo → Bool) (l1 l2 : List Todo)
    (h : l1.find? p = none) :
    (l1 ++ l2).find? p = l2.find? p := by
  induction l1 with
  | nil => rfl
  | cons a l ih =>
    by_cases hp : p a = true
    · rw [List.find?_cons_of_pos _ hp] at h
      exact absurd h (by simp)
    · rw [List.find?_cons_of_neg _ hp] at h
      rw [List.cons_append, List.find?_cons_of_neg _ hp]
      exact ih h

/-- A list in which an id occurs exactly once is a permutation of the found
occurrence consed onto the list with that id filtered out. -/
theorem perm_cons_filter_of_find? (l : List Todo) (x : Nat) (t : Todo)
    (hf : l.find? (fun a => a.id == x) = some t)
    (hc : countId l x = 1) :
    l.Perm (t :: l.filter (fun a => ! (a.id == x))) := by
  induction l with
  | nil => exact absurd hf (by simp)
  | cons a l ih =>
    by_cases hp : (a.id == x) = true
    · have hta : t = a := by
        simp only [List.find?_cons, hp] at hf
        exact (Option.some.inj hf).symm
      have hcl : countId l x = 0 := by
        unfold countId at hc ⊢
        rw [List.filter_cons] at hc
        simpa [hp] using hc
      have hfilter : (a :: l).filter (fun a => ! (a.id == x)) = l := by
        rw [List.filter_cons]
        simp [hp, filter_ne_of_countId_zero l x hcl]
      rw [hfilter, hta]
    · have hp2 : (a.id == x) = false := by
        exact Bool.not_eq_true _ |>.mp hp
      simp only [List.find?_cons, hp2] at hf
      have hcl : countId l x = 1 := by
        unfold countId at hc ⊢
        rw [List.filter_cons] at hc
        simpa [hp2] using hc
      have hfilter : (a :: l).filter (fun a => ! (a.id == x)) =
          a :: l.filter (fun a => ! (a.id == x)) := by
        rw [List.filter_cons]
        simp [hp2]
      rw [hfilter]
      exact List.Perm.trans ((ih hf hcl).cons a) (List.Perm.swap t a _)

/-- State result of `toggleCompleted` when the id is found in the active
list: the active list is filtered, the found todo is appended to the
completed list, and the whole completed list is re-marked completed. -/
theorem toggle_state_of_found_active (id : Nat) (st : CState) (todo : Todo)
    (hf : st.todoList.find? (fun t => t.id == id) = some todo) :
    (toggleCompleted id st).1 =
      ⟨st.todoList.filter (fun t => ! (t.id == id)),
       (st.completedList ++ [todo]).map (fun t => { t with completed := true })⟩ := by
  simp [toggleCompleted, saveTodos, hf]

/-- State result of `toggleCompleted` when the id is absent from the active
list and found in the completed list: the completed list is filtered, the
found todo is appended to the active list, and the whole active list is
re-marked not completed. -/
theorem toggle_state_of_found_completed (id : Nat) (st : CState) (todo : Todo)
    (hfa : st.todoList.find? (fun t => t.id == id) = none)
    (hfc : st.completedList.find? (fun t => t.id == id) = some todo) :
    (toggleCompleted id st).1 =
      ⟨(st.todoList ++ [todo]).map (fun t => { t with completed := false }),
       st.completedList.filter (fun t => ! (t.id == id))⟩ := by
  simp [toggleCompleted, saveTodos, hfa, hfc]

/-- Every reachable controller state satisfies the denormalization
invariant: active todos are flagged not completed, completed todos are
flagged completed. -/
theorem reachable_consistent (st : CState) (h : Reachable st) :
    Consistent st := by
  induction h with
  | init => exact ⟨by simp, by simp⟩
  | add text priority dueDate st hst ih =>
    obtain ⟨ihA, ihC⟩ := ih
    constructor
    · intro t ht
      simp only [addTodo, saveTodos] at ht
      rcases List.mem_append.mp ht with h1 | h1
      · exact ihA t h1
      · simp at h1
        rw [h1]
    · intro t ht
      exact ihC t ht
  | toggle id st hst ih =>
    obtain ⟨ihA, ihC⟩ := ih
    cases hfa : st.todoList.find? (fun t => t.id == id) with
    | some todo =>
      rw [toggle_state_of_found_active id st todo hfa]
      constructor
      · intro t ht
        exact ihA t (List.mem_of_mem_filter ht)
      · intro t ht
        obtain ⟨b, _, hb⟩ := List.mem_map.mp ht
        rw [← hb]
    | none =>
      cases hfc : st.completedList.find? (fun t => t.id == id) with
      | some todo =>
        rw [toggle_state_of_found_completed id st todo hfa hfc]
        constructor
        · intro t ht
          obtain ⟨b, _, hb⟩ := List.mem_map.mp ht
          rw [← hb]
        · intro t ht
          exact ihC t (List.mem_of_mem_filter ht)
      | none =>
        have : (toggleCompleted id st).1 = st := by
          simp [toggleCompleted, hfa, hfc]
        rw [this]
        exact ⟨ihA, ihC⟩
  | load todos st st1 ev hst heq ih =>
    simp only [loadTodos, Except.ok.injEq, Prod.mk.injEq] at heq
    constructor
    · intro t ht
      rw [← heq.1] at ht
      have := (List.mem_filter.mp ht).2
      simpa using this
    · intro t ht
      rw [← heq.1] at ht
      exact (List.mem_filter.mp ht).2

/-- The state reached by `addTodo "a"`, `addTodo "b"`, `toggleCompleted 1`
is a reachable controller state. -/
theorem reachable_stTwoToggled : Reachable stTwoToggled :=
  Reachable.toggle 1 _
    (Reachable.add "b" "p2" "d2" _
      (Reachable.add "a" "p1" "d1" _ Reachable.init))

/-- C7: after every operation — that is, in every reachable controller
state — every todo held in the active list has `completed = false` and every
todo held in the completed list has `completed = true`. -/
theorem c7_flags_match_lists (st : CState) (h : Reachable st) :
    (∀ t ∈ st.todoList, t.completed = false) ∧
    (∀ t ∈ st.completedList, t.completed = true) :=
  reachable_consistent st h

theorem c7_flags_match_lists_witness :
    Reachable stTwoToggled ∧
    ((∀ t ∈ stTwoToggled.todoList, t.completed = false) ∧
     (∀ t ∈ stTwoToggled.completedList, t.completed = true)) :=
  ⟨reachable_stTwoToggled, c7_flags_match_lists stTwoToggled reachable_stTwoToggled⟩

/-- C4: for every reachable in-memory state, loading what `saveTodos` wrote
(from any prior state) reproduces exactly the same active list and the same
completed list — same todos, same field values, same order within each
list. -/
theorem c4_save_load_roundtrip (st st0 : CState) (h : Reachable st) :
    (saveTodos st).2 = [Event.setItem (st.todoList ++ st.completedList)] ∧
    loadTodos (Stored.parsed (st.todoList ++ st.completedList)) st0 =
      Except.ok (⟨st.todoList, st.completedList⟩,
        [Event.displayTodos st.todoList,
         Event.displayCompleted st.completedList]) := by
  obtain ⟨hA, hC⟩ := reachable_consistent st h
  refine ⟨rfl, ?_⟩
  have hactive : (st.todoList ++ st.completedList).filter (fun t => ! t.completed) =
      st.todoList := by
    rw [List.filter_append]
    rw [List.filter_eq_self.mpr (fun a ha => by simp [hA a ha])]
    rw [List.filter_eq_nil_iff.mpr (fun a ha => by simp [hC a ha])]
    simp
  have hcompleted : (st.todoList ++ st.completedList).filter (fun t => t.completed) =
      st.completedList := by
    rw [List.filter_append]
    rw [List.filter_eq_nil_iff.mpr (fun a ha => by simp [hA a ha])]
    rw [List.filter_eq_self.mpr (fun a ha => hC a ha)]
    simp
  simp [loadTodos, hactive, hcompleted]

theorem c4_save_load_roundtrip_witness :
    Reachable stTwoToggled ∧
    ((saveTodos stTwoToggled).2 =
        [Event.setItem (stTwoToggled.todoList ++ stTwoToggled.completedList)] ∧
     loadTodos (Stored.parsed (stTwoToggled.todoList ++ stTwoToggled.completedList))
        emptyState =
      Except.ok (⟨stTwoToggled.todoList, stTwoToggled.completedList⟩,
        [Event.displayTodos stTwoToggled.todoList,
         Event.displayCompleted stTwoToggled.completedList])) :=
  ⟨reachable_stTwoToggled,
    c4_save_load_roundtrip stTwoToggled emptyState reachable_stTwoToggled⟩

/-- In a list in which an id occurs exactly once, searching for that id
succeeds and returns a member carrying that id. -/
theorem find?_some_of_countId_one (l : List Todo) (x : Nat)
    (h : countId l x = 1) :
    ∃ t, l.find? (fun a => a.id == x) = some t ∧ (t.id == x) = true ∧ t ∈ l := by
  cases hfo : l.find? (fun a => a.id == x) with
  | none =>
    exfalso
    have hall := List.find?_eq_none.mp hfo
    have hnil : l.filter (fun a => a.id == x) = [] :=
      List.filter_eq_nil_iff.mpr hall
    unfold countId at h
    rw [hnil] at h
    simp at h
  | some t =>
    have hp := List.find?_some hfo
    have hm := List.mem_of_find?_eq_some hfo
    exact ⟨t, rfl, hp, hm⟩

/-- C3 counterexample: in the state `stInconsistent` the id 1 is present in
exactly one list (the active list), yet toggling id 1 twice changes the
`completed` flag of the other todo (id 2) from `false` to `true`, because
each toggle re-stamps the whole destination list.  The claim as stated over
every state is therefore false. -/
theorem c3_double_toggle_counterexample :
    (stInconsistent.todoList.map Todo.id = [1] ∧
     stInconsistent.completedList.map Todo.id = [2]) ∧
    (∃ t ∈ stInconsistent.completedList, t.id = 2 ∧ t.completed = false) ∧
    (∀ t ∈ (toggleCompleted 1 (toggleCompleted 1 stInconsistent).1).1.completedList,
      t.id = 2 → t.completed = true) ∧
    (∀ t ∈ (toggleCompleted 1 (toggleCompleted 1 stInconsistent).1).1.todoList,
      t.id ≠ 2) := by
  decide

/-- C3 (amended): for every state in which each todo's `completed` flag
matches the list holding it and the toggled id occurs exactly once across
the two lists, toggling that id twice returns both lists to permutations of
their original contents — the toggled todo is back in its original list with
its original flag, and every other todo is unchanged, flag included. -/
theorem c3_double_toggle_restores (st : CState) (x : Nat)
    (hcons : Consistent st)
    (hcount : countId st.todoList x + countId st.completedList x = 1) :
    (toggleCompleted x (toggleCompleted x st).1).1.todoList.Perm st.todoList ∧
    (toggleCompleted x (toggleCompleted x st).1).1.completedList.Perm
      st.completedList := by
  obtain ⟨hA, hC⟩ := hcons
  have hsplit : (countId st.todoList x = 1 ∧ countId st.completedList x = 0) ∨
      (countId st.todoList x = 0 ∧ countId st.completedList x = 1) := by omega
  rcases hsplit with ⟨h1, h2⟩ | ⟨h1, h2⟩
  · obtain ⟨t, hf, hpred, hmem⟩ := find?_some_of_countId_one st.todoList x h1
    have htc : t.completed = false := hA t hmem
    have hst1 : (toggleCompleted x st).1 =
        ⟨st.todoList.filter (fun a => ! (a.id == x)),
         st.completedList ++ [{ t with completed := true }]⟩ := by
      rw [toggle_state_of_found_active x st t hf]
      rw [List.map_append, map_setTrue_of_all st.completedList hC]
      rfl
    have hf1A : (st.todoList.filter (fun a => ! (a.id == x))).find?
        (fun a => a.id == x) = none := by
      apply List.find?_eq_none.mpr
      intro a ha
      have hne := (List.mem_filter.mp ha).2
      simp only [Bool.not_eq_true'] at hne
      simp [hne]
    have hfCnone : st.completedList.find? (fun a => a.id == x) = none :=
      find?_eq_none_of_countId_zero st.completedList x h2
    have hpred1 : (({ t with completed := true } : Todo).id == x) = true := hpred
    have hf1C : (st.completedList ++ [{ t with completed := true }]).find?
        (fun a => a.id == x) = some { t with completed := true } := by
      rw [find?_append_of_none _ _ _ hfCnone]
      simp [List.find?_cons, hpred1]
    have hact : ((st.todoList.filter (fun (a : Todo) => ! (a.id == x))) ++
        [{ t with completed := true }]).map (fun (a : Todo) => { a with completed := false }) =
        st.todoList.filter (fun a => ! (a.id == x)) ++ [t] := by
      rw [List.map_append]
      rw [map_setFalse_of_all (st.todoList.filter (fun a => ! (a.id == x)))
        (fun a ha => hA a (List.mem_of_mem_filter ha))]
      have ht2 : ({ { t with completed := true } with completed := false } : Todo) = t := by
        cases t
        simp_all
      simp [ht2]
    have hcomp : (st.completedList ++ [{ t with completed := true }]).filter
        (fun a => ! (a.id == x)) = st.completedList := by
      rw [List.filter_append, filter_ne_of_countId_zero st.completedList x h2]
      simp [List.filter_cons, hpred1]
    have hfinal : (toggleCompleted x (toggleCompleted x st).1).1 =
        ⟨st.todoList.filter (fun a => ! (a.id == x)) ++ [t], st.completedList⟩ := by
      rw [hst1, toggle_state_of_found_completed x _ _ hf1A hf1C, hact, hcomp]
    rw [hfinal]
    constructor
    · exact (List.perm_append_singleton t _).trans
        (perm_cons_filter_of_find? st.todoList x t hf h1).symm
    · exact List.Perm.refl _
  · obtain ⟨t, hf, hpred, hmem⟩ := find?_some_of_countId_one st.completedList x h2
    have htc : t.completed = true := hC t hmem
    have hfA : st.todoList.find? (fun a => a.id == x) = none :=
      find?_eq_none_of_countId_zero st.todoList x h1
    have hst1 : (toggleCompleted x st).1 =
        ⟨st.todoList ++ [{ t with completed := false }],
         st.completedList.filter (fun a => ! (a.id == x))⟩ := by
      rw [toggle_state_of_found_completed x st t hfA hf]
      rw [List.map_append, map_setFalse_of_all st.todoList hA]
      rfl
    have hpred0 : (({ t with completed := false } : Todo).id == x) = true := hpred
    have hf2A : (st.todoList ++ [{ t with completed := false }]).find?
        (fun a => a.id == x) = some { t with completed := false } := by
      rw [find?_append_of_none _ _ _ hfA]
      simp [List.find?_cons, hpred0]
    have hact2 : (st.todoList ++ [{ t with completed := false }]).filter
        (fun a => ! (a.id == x)) = st.todoList := by
      rw [List.filter_append, filter_ne_of_countId_zero st.todoList x h1]
      simp [List.filter_cons, hpred0]
    have hcomp2 : ((st.completedList.filter (fun (a : Todo) => ! (a.id == x))) ++
        [{ t with completed := false }]).map (fun (a : Todo) => { a with completed := true }) =
        st.completedList.filter (fun a => ! (a.id == x)) ++ [t] := by
      rw [List.map_append]
      rw [map_setTrue_of_all (st.completedList.filter (fun a => ! (a.id == x)))
        (fun a ha => hC a (List.mem_of_mem_filter ha))]
      have ht2 : ({ { t with completed := false } with completed := true } : Todo) = t := by
        cases t
        simp_all
      simp [ht2]
    have hfinal : (toggleCompleted x (toggleCompleted x st).1).1 =
        ⟨st.todoList, st.completedList.filter (fun a => ! (a.id == x)) ++ [t]⟩ := by
      rw [hst1, toggle_state_of_found_active x _ _ hf2A, hact2, hcomp2]
    rw [hfinal]
    constructor
    · exact List.Perm.refl _
    · exact (List.perm_append_singleton t _).trans
        (perm_cons_filter_of_find? st.completedList x t hf h2).symm

theorem c3_double_toggle_restores_witness :
    (Consistent stTwoToggled ∧
     countId stTwoToggled.todoList 2 + countId stTwoToggled.completedList 2 = 1) ∧
    ((toggleCompleted 2 (toggleCompleted 2 stTwoToggled).1).1.todoList.Perm
        stTwoToggled.todoList ∧
     (toggleCompleted 2 (toggleCompleted 2 stTwoToggled).1).1.completedList.Perm
        stTwoToggled.completedList) :=
  ⟨⟨by decide, by decide⟩,
    c3_double_toggle_restores stTwoToggled 2 (by decide) (by decide)⟩

/-- C5 counterexample: in the state `stDoubled` the id 1 is found in the
active list, but `toggleCompleted 1` does not remove exactly that single
entry — the filter removes both entries carrying id 1 while only the found
one is appended to the completed list.  Such a state is even reachable
(`stDupId`).  The claim as stated over every state is therefore false. -/
theorem c5_toggle_counterexample :
    stDoubled.todoList.length = 2 ∧
    (∀ t ∈ stDoubled.todoList, t.id = 1) ∧
    (toggleCompleted 1 stDoubled).1.todoList = [] ∧
    (toggleCompleted 1 stDoubled).1.completedList.length = 1 := by
  decide

/-- C5 (amended): for every state and every id occurring exactly once in the
active list, `toggleCompleted` removes exactly that entry from active (the
rest of active is kept, in order), appends it at the tail of the completed
list, and re-marks every item of the completed list completed (full-list
normalization, the existing items kept in order); symmetrically, an id
absent from active and occurring exactly once in completed is removed from
completed, appended at the tail of active, and every item of active is
re-marked not completed. -/
theorem c5_toggle_moves (st : CState) (x : Nat) :
    (∀ t, st.todoList.find? (fun a => a.id == x) = some t →
      countId st.todoList x = 1 →
      (toggleCompleted x st).1.todoList =
        st.todoList.filter (fun a => ! (a.id == x)) ∧
      st.todoList.Perm (t :: (toggleCompleted x st).1.todoList) ∧
      (toggleCompleted x st).1.completedList =
        st.completedList.map (fun (a : Todo) => { a with completed := true }) ++
          [{ t with completed := true }] ∧
      (∀ a ∈ (toggleCompleted x st).1.completedList, a.completed = true)) ∧
    (∀ t, st.todoList.find? (fun a => a.id == x) = none →
      st.completedList.find? (fun a => a.id == x) = some t →
      countId st.completedList x = 1 →
      (toggleCompleted x st).1.completedList =
        st.completedList.filter (fun a => ! (a.id == x)) ∧
      st.completedList.Perm (t :: (toggleCompleted x st).1.completedList) ∧
      (toggleCompleted x st).1.todoList =
        st.todoList.map (fun (a : Todo) => { a with completed := false }) ++
          [{ t with completed := false }] ∧
      (∀ a ∈ (toggleCompleted x st).1.todoList, a.completed = false)) := by
  constructor
  · intro t hf hc
    rw [toggle_state_of_found_active x st t hf]
    refine ⟨rfl, ?_, ?_, ?_⟩
    · exact perm_cons_filter_of_find? st.todoList x t hf hc
    · exact List.map_append _ _ _
    · intro a ha
      obtain ⟨b, _, hb⟩ := List.mem_map.mp ha
      rw [← hb]
  · intro t hfa hfc hc
    rw [toggle_state_of_found_completed x st t hfa hfc]
    refine ⟨rfl, ?_, ?_, ?_⟩
    · exact perm_cons_filter_of_find? st.completedList x t hfc hc
    · exact List.map_append _ _ _
    · intro a ha
      obtain ⟨b, _, hb⟩ := List.mem_map.mp ha
      rw [← hb]

theorem c5_toggle_moves_witness :
    stTwoToggled.todoList.Perm
      (⟨2, "b", false, "p2", "d2"⟩ :: (toggleCompleted 2 stTwoToggled).1.todoList) ∧
    stTwoToggled.completedList.Perm
      (⟨1, "a", true, "p1", "d1"⟩ :: (toggleCompleted 1 stTwoToggled).1.completedList) :=
  ⟨((c5_toggle_moves stTwoToggled 2).1 ⟨2, "b", false, "p2", "d2"⟩
      (by decide) (by decide)).2.1,
   ((c5_toggle_moves stTwoToggled 1).2 ⟨1, "a", true, "p1", "d1"⟩
      (by decide) (by decide) (by decide)).2.1⟩

/-- If an id is found in a list, it occurs there at least once. -/
theorem countId_pos_of_find? (l : List Todo) (x : Nat) (t : Todo)
    (hf : l.find? (fun a => a.id == x) = some t) : 1 ≤ countId l x := by
  have hmem := List.mem_of_find?_eq_some hf
  have hp := List.find?_some hf
  have hmf : t ∈ l.filter (fun a => a.id == x) := List.mem_filter.mpr ⟨hmem, hp⟩
  unfold countId
  exact List.length_pos.mpr (List.ne_nil_of_mem hmf)

/-- In a list with pairwise distinct ids, any id occurs at most once. -/
theorem countId_le_one_of_nodup (l : List Todo) (x : Nat)
    (h : (l.map Todo.id).Nodup) : countId l x ≤ 1 := by
  induction l with
  | nil => simp [countId]
  | cons a l ih =>
    rw [List.map_cons, List.nodup_cons] at h
    obtain ⟨hna, hnd⟩ := h
    unfold countId
    rw [List.filter_cons]
    by_cases hp : (a.id == x) = true
    · have hax : a.id = x := by simpa using hp
      have hzero : l.filter (fun t => t.id == x) = [] := by
        apply List.filter_eq_nil_iff.mpr
        intro b hb hbx
        apply hna
        have hbid : b.id = x := by simpa using hbx
        rw [hax, ← hbid]
        exact List.mem_map.mpr ⟨b, hb, rfl⟩
      simp [hp, hzero]
    · simp only [hp]
      exact ih hnd

/-- Taking ids after re-marking todos completed is the same as taking ids
directly. -/
theorem map_id_map_setTrue (l : List Todo) :
    (l.map (fun (a : Todo) => { a with completed := true })).map Todo.id =
      l.map Todo.id := by
  rw [List.map_map]
  rfl

/-- Taking ids after re-marking todos not completed is the same as taking
ids directly. -/
theorem map_id_map_setFalse (l : List Todo) :
    (l.map (fun (a : Todo) => { a with completed := false })).map Todo.id =
      l.map Todo.id := by
  rw [List.map_map]
  rfl

/-- On a state with pairwise distinct ids, `toggleCompleted` permutes the
multiset of ids held in memory: no todo is duplicated and none is lost. -/
theorem toggle_allIds_perm (st : CState) (x : Nat)
    (hnd : (allIds st).Nodup) :
    (allIds (toggleCompleted x st).1).Perm (allIds st) := by
  cases hfa : st.todoList.find? (fun t => t.id == x) with
  | some t =>
    have hndA : (st.todoList.map Todo.id).Nodup := by
      unfold allIds at hnd
      rw [List.map_append] at hnd
      exact hnd.of_append_left
    have hc : countId st.todoList x = 1 :=
      Nat.le_antisymm (countId_le_one_of_nodup _ _ hndA)
        (countId_pos_of_find? _ _ _ hfa)
    have hAperm : (st.todoList.map Todo.id).Perm
        (t.id :: (st.todoList.filter (fun a => ! (a.id == x))).map Todo.id) := by
      have hmap := (perm_cons_filter_of_find? st.todoList x t hfa hc).map Todo.id
      simpa using hmap
    rw [toggle_state_of_found_active x st t hfa]
    show (List.map Todo.id
        (st.todoList.filter (fun a => ! (a.id == x)) ++
          (st.completedList ++ [t]).map (fun (a : Todo) => { a with completed := true }))).Perm
      (List.map Todo.id (st.todoList ++ st.completedList))
    have e1 : List.map Todo.id
        (st.todoList.filter (fun a => ! (a.id == x)) ++
          (st.completedList ++ [t]).map (fun (a : Todo) => { a with completed := true })) =
        List.map Todo.id (st.todoList.filter (fun a => ! (a.id == x))) ++
          (List.map Todo.id st.completedList ++ [t.id]) := by
      rw [List.map_append, map_id_map_setTrue, List.map_append]
      rfl
    rw [e1, List.map_append]
    have p1 : (List.map Todo.id (st.todoList.filter (fun a => ! (a.id == x))) ++
        (List.map Todo.id st.completedList ++ [t.id])).Perm
        (List.map Todo.id (st.todoList.filter (fun a => ! (a.id == x))) ++
          ([t.id] ++ List.map Todo.id st.completedList)) :=
      List.Perm.append_left _ List.perm_append_comm
    refine p1.trans ?_
    rw [← List.append_assoc]
    have p3 : (List.map Todo.id (st.todoList.filter (fun a => ! (a.id == x))) ++
        [t.id]).Perm (t.id :: List.map Todo.id (st.todoList.filter (fun a => ! (a.id == x)))) :=
      List.perm_append_singleton _ _
    exact List.Perm.append_right _ (p3.trans hAperm.symm)
  | none =>
    cases hfc : st.completedList.find? (fun t => t.id == x) with
    | some t =>
      have hndC : (st.completedList.map Todo.id).Nodup := by
        unfold allIds at hnd
        rw [List.map_append] at hnd
        exact hnd.of_append_right
      have hc : countId st.completedList x = 1 :=
        Nat.le_antisymm (countId_le_one_of_nodup _ _ hndC)
          (countId_pos_of_find? _ _ _ hfc)
      have hCperm : (st.completedList.map Todo.id).Perm
          (t.id :: (st.completedList.filter (fun a => ! (a.id == x))).map Todo.id) := by
        have hmap := (perm_cons_filter_of_find? st.completedList x t hfc hc).map Todo.id
        simpa using hmap
      rw [toggle_state_of_found_completed x st t hfa hfc]
      show (List.map Todo.id
          ((st.todoList ++ [t]).map (fun (a : Todo) => { a with completed := false }) ++
            st.completedList.filter (fun a => ! (a.id == x)))).Perm
        (List.map Todo.id (st.todoList ++ st.completedList))
      have e1 : List.map Todo.id
          ((st.todoList ++ [t]).map (fun (a : Todo) => { a with completed := false }) ++
            st.completedList.filter (fun a => ! (a.id == x))) =
          (List.map Todo.id st.todoList ++ [t.id]) ++
            List.map Todo.id (st.completedList.filter (fun a => ! (a.id == x))) := by
        rw [List.map_append, map_id_map_setFalse, List.map_append]
        rfl
      rw [e1, List.map_append]
      have p1 : ((List.map Todo.id st.todoList ++ [t.id]) ++
          List.map Todo.id (st.completedList.filter (fun a => ! (a.id == x)))).Perm
          ((t.id :: List.map Todo.id st.todoList) ++
            List.map Todo.id (st.completedList.filter (fun a => ! (a.id == x)))) :=
        List.Perm.append_right _ (List.perm_append_singleton _ _)
      refine p1.trans ?_
      refine List.Perm.trans List.perm_middle.symm ?_
      exact List.Perm.append_left _ hCperm.symm
    | none =>
      have hid : (toggleCompleted x st).1 = st := by
        simp [toggleCompleted, hfa, hfc]
      rw [hid]

/-- Along every add/toggle sequence from the empty state, the documented
controller copy keeps the ids in memory pairwise distinct and bounded by
the total number of todos — the freshness property that makes the
documented id formula sound (and that the `src/js/todo.js` formula
violates, see the C1 and C2 evaluations). -/
theorem reachableDoc_ids_nodup (st : CState) (h : ReachableDoc st) :
    (allIds st).Nodup ∧
    ∀ i ∈ allIds st, i ≤ st.todoList.length + st.completedList.length := by
  induction h with
  | init =>
    constructor
    · simp [allIds]
    · intro i hi
      simp [allIds] at hi
  | add text priority dueDate st hst ih =>
    obtain ⟨ihn, ihb⟩ := ih
    have hperm : (allIds (addTodoDoc text priority dueDate st).1).Perm
        ((st.todoList.length + st.completedList.length + 1) :: allIds st) := by
      show (List.map Todo.id
          ((st.todoList ++
            [⟨st.todoList.length + st.completedList.length + 1, text, false,
              priority, dueDate⟩]) ++ st.completedList)).Perm _
      rw [List.append_assoc, List.map_append]
      have e2 : List.map Todo.id
          ([(⟨st.todoList.length + st.completedList.length + 1, text, false,
              priority, dueDate⟩ : Todo)] ++ st.completedList) =
          (st.todoList.length + st.completedList.length + 1) ::
            List.map Todo.id st.completedList := rfl
      rw [e2]
      have e3 : ((st.todoList.length + st.completedList.length + 1) :: allIds st) =
          (st.todoList.length + st.completedList.length + 1) ::
            (List.map Todo.id st.todoList ++ List.map Todo.id st.completedList) := by
        unfold allIds
        rw [List.map_append]
      rw [e3]
      exact List.perm_middle
    have hfresh : st.todoList.length + st.completedList.length + 1 ∉ allIds st := by
      intro hmem
      have := ihb _ hmem
      omega
    have hlen : (addTodoDoc text priority dueDate st).1.todoList.length +
        (addTodoDoc text priority dueDate st).1.completedList.length =
        st.todoList.length + st.completedList.length + 1 := by
      simp [addTodoDoc, saveTodos]
      omega
    constructor
    · exact hperm.nodup_iff.mpr (List.nodup_cons.mpr ⟨hfresh, ihn⟩)
    · intro i hi
      have hm := hperm.mem_iff.mp hi
      rw [hlen]
      rcases List.mem_cons.mp hm with h1 | h1
      · omega
      · have := ihb i h1
        omega
  | toggle id st hst ih =>
    obtain ⟨ihn, ihb⟩ := ih
    have hperm := toggle_allIds_perm st id ihn
    have hlen : (toggleCompleted id st).1.todoList.length +
        (toggleCompleted id st).1.completedList.length =
        st.todoList.length + st.completedList.length := by
      have hl := hperm.length_eq
      unfold allIds at hl
      simpa [List.length_map, List.length_append] using hl
    constructor
    · exact hperm.nodup_iff.mpr ihn
    · intro i hi
      have hm := hperm.mem_iff.mp hi
      have := ihb i hm
      omega
